import Mathlib

/-!
Verification development for the priority-aware request queue batcher
(devOpcuaSup/RequestQueueBatcher.h) and the link-string splitter of the
dirk-zimoch/opcua repository.

Modelling conventions:
- C++ unsigned int parameters are modelled as Nat.
- C++ double values (hold-off times) are modelled as exact rationals (ℚ);
  static_cast<unsigned int> of a nonnegative double is modelled as Int.floor
  followed by Int.toNat (truncation toward zero).
- The multi-threaded worker loop is modelled by a pure function computing one
  worker cycle over a snapshot of the three queues.  The two separate
  paramLock scopes inside run() are modelled by a cycle function taking two
  parameter-block snapshots, one per acquisition.
-/

namespace DevOpcua

/-- Parameter block of RequestQueueBatcher: maxBatchSize, holdOffVar,
holdOffFix (guarded by paramLock in the source). -/
structure Params where
  maxBatchSize : Nat
  holdOffVar : ℚ
  holdOffFix : ℚ
deriving DecidableEq

/-- Embedding of RequestQueueBatcher::setParams (RequestQueueBatcher.h,
lines 197-207).  Note that holdOffVar is only assigned when
maxRequestsPerBatch is nonzero; otherwise it keeps its previous value. -/
def setParams (p : Params) (maxRequestsPerBatch minHold maxHold : Nat) : Params :=
  ⟨maxRequestsPerBatch,
   if maxRequestsPerBatch ≠ 0 then
     (if maxHold ≠ 0 then ((maxHold : ℚ) - (minHold : ℚ)) / ((maxRequestsPerBatch : ℚ) * 1000)
      else 0)
   else p.holdOffVar,
   (minHold : ℚ) / 1000⟩

/-- Embedding of the accessor RequestQueueBatcher::maxRequests
(RequestQueueBatcher.h, line 213). -/
def maxRequests (p : Params) : Nat := p.maxBatchSize

/-- Embedding of the accessor RequestQueueBatcher::minHoldOff
(RequestQueueBatcher.h, line 219): static_cast<unsigned int>(holdOffFix * 1e3),
with the double multiplication idealized as exact rational arithmetic.
Adequate only for statements that do not depend on binary64 rounding (such
as comparing the two accessors on the same stored values); the
rounding-faithful accessor is minHoldOffFP below. -/
def minHoldOff (p : Params) : Nat := (⌊p.holdOffFix * 1000⌋).toNat

/-- Embedding of the accessor RequestQueueBatcher::maxHoldOff
(RequestQueueBatcher.h, lines 225-227):
static_cast<unsigned int>((holdOffFix + holdOffVar * maxBatchSize) * 1e3),
with the double operations idealized as exact rational arithmetic.
Adequate only for statements that do not depend on binary64 rounding; the
rounding-faithful accessor is maxHoldOffFP below. -/
def maxHoldOff (p : Params) : Nat :=
  (⌊(p.holdOffFix + p.holdOffVar * (p.maxBatchSize : ℚ)) * 1000⌋).toNat

/-- Round a rational to the nearest integer, ties to even: the rounding of
the mantissa applied by IEEE-754 round-to-nearest mode. -/
def roundNearestEven (m : ℚ) : ℤ :=
  if m - (⌊m⌋ : ℚ) < 1 / 2 then ⌊m⌋
  else if 1 / 2 < m - (⌊m⌋ : ℚ) then ⌊m⌋ + 1
  else if ⌊m⌋ % 2 = 0 then ⌊m⌋ else ⌊m⌋ + 1

/-- The IEEE-754 binary64 neighbour of a positive rational: the mantissa
q / 2 ^ (e - 52), with e the binade exponent of q, rounded to nearest even
and scaled back.  Exact for the normal range, which covers every value the
batcher parameters can take. -/
def fl64Pos (q : ℚ) : ℚ :=
  (roundNearestEven (q / 2 ^ (Int.log 2 q - 52)) : ℚ) * 2 ^ (Int.log 2 q - 52)

/-- Round a rational to the nearest IEEE-754 binary64 value (normal range,
round to nearest, ties to even): the rounding performed by every double
arithmetic operation of the source. -/
def fl64 (q : ℚ) : ℚ :=
  if 0 < q then fl64Pos q else if q < 0 then -fl64Pos (-q) else 0

/-- Embedding of RequestQueueBatcher::setParams (RequestQueueBatcher.h,
lines 197-207) with the binary64 rounding of the double operations made
explicit: the two divisions round to nearest double, while the subtraction
static_cast<double>(maxHoldOff) - minHoldOff and the product
maxRequestsPerBatch * 1e3 are exact in binary64 for unsigned int operands
(integers below 2^53) and therefore incur no rounding. -/
def setParamsFP (p : Params) (maxRequestsPerBatch minHold maxHold : Nat) : Params :=
  ⟨maxRequestsPerBatch,
   if maxRequestsPerBatch ≠ 0 then
     (if maxHold ≠ 0 then
        fl64 (((maxHold : ℚ) - (minHold : ℚ)) / ((maxRequestsPerBatch : ℚ) * 1000))
      else 0)
   else p.holdOffVar,
   fl64 ((minHold : ℚ) / 1000)⟩

/-- Embedding of RequestQueueBatcher::minHoldOff (RequestQueueBatcher.h,
line 219) with binary64 rounding: the double product holdOffFix * 1e3 is
rounded to nearest double, then truncated by the cast to unsigned int. -/
def minHoldOffFP (p : Params) : Nat := (⌊fl64 (p.holdOffFix * 1000)⌋).toNat

/-- Embedding of RequestQueueBatcher::maxHoldOff (RequestQueueBatcher.h,
lines 225-227) with binary64 rounding: each double operation of
(holdOffFix + holdOffVar * maxBatchSize) * 1e3 rounds to nearest double
(the conversion of maxBatchSize to double is exact below 2^53), then the
cast to unsigned int truncates. -/
def maxHoldOffFP (p : Params) : Nat :=
  (⌊fl64 (fl64 (p.holdOffFix + fl64 (p.holdOffVar * (p.maxBatchSize : ℚ))) *
    1000)⌋).toNat

/-- EPICS menuPriority values used to index the three queues
(0 = LOW, 1 = MID, 2 = HIGH). -/
inductive QueueLevel
  | low
  | mid
  | high
deriving DecidableEq

/-- The three FIFO queues of the batcher (queue[menuPriority_NUM_CHOICES]
in the source), one per priority level, as lists with head = queue front. -/
structure Queues (α : Type) where
  low : List α
  mid : List α
  high : List α
deriving DecidableEq

variable {α : Type}

/-- Embedding of RequestQueueBatcher::pushRequest (single-cargo overload,
RequestQueueBatcher.h, lines 131-137): append the cargo at the tail of the
queue selected by the priority. -/
def pushRequest (qs : Queues α) (x : α) : QueueLevel → Queues α
  | QueueLevel.low => ⟨qs.low ++ [x], qs.mid, qs.high⟩
  | QueueLevel.mid => ⟨qs.low, qs.mid ++ [x], qs.high⟩
  | QueueLevel.high => ⟨qs.low, qs.mid, qs.high ++ [x]⟩

/-- A sequence of pushRequest calls for the same priority, in list order
(also the effect of the vector overload of pushRequest, lines 149-156). -/
def pushSeq (qs : Queues α) (xs : List α) (lvl : QueueLevel) : Queues α :=
  xs.foldl (fun q x => pushRequest q x lvl) qs

/-- Embedding of the inner collection loop of RequestQueueBatcher::run
(RequestQueueBatcher.h, lines 251-254):
while (queue[prio].size() && (!max || batch.size() < max)) move the queue
front to the back of the batch. -/
def drainLoop (mx : Nat) : List α → List α → List α × List α
  | batch, [] => (batch, [])
  | batch, x :: rest =>
    if mx = 0 ∨ batch.length < mx then drainLoop mx (batch ++ [x]) rest
    else (batch, x :: rest)

/-- Embedding of one iteration of the priority loop of run
(RequestQueueBatcher.h, lines 248-258): the guarded drain of one queue,
followed by the self-yield check (re-signal workToDo if the queue is still
not empty).  The accumulator carries the batch and the signalled flag. -/
def levelStep (mx : Nat) (acc : List α × Bool) (q : List α) :
    (List α × Bool) × List α :=
  let bq := if mx = 0 ∨ acc.1.length < mx then drainLoop mx acc.1 q else (acc.1, q)
  ((bq.1, acc.2 || !bq.2.isEmpty), bq.2)

/-- The observable outcome of one worker cycle: the assembled batch, the
residual queues, whether workToDo was re-signalled, the list of
processRequests calls made, the computed hold-off, and the list of
sleep calls made. -/
structure CycleResult (α : Type) where
  batch : List α
  queues : Queues α
  resignal : Bool
  deliveries : List (List α)
  holdOff : ℚ
  sleeps : List ℚ
deriving DecidableEq

/-- Embedding of one iteration of the worker loop RequestQueueBatcher::run
(RequestQueueBatcher.h, lines 231-273), parameterised by the two parameter
block snapshots the code takes: pCap is read in the first paramLock scope
(line 242-245, supplying max); pHold is read in the second paramLock scope
(line 263-266, supplying holdOffFix and holdOffVar).  The priority loop runs
from HIGH down to LOW; the batch is delivered iff non-empty; sleep is called
iff the hold-off is positive. -/
def runCycleTwo (pCap pHold : Params) (qs : Queues α) : CycleResult α :=
  let mx := pCap.maxBatchSize
  let s2 := levelStep mx ([], false) qs.high
  let s1 := levelStep mx s2.1 qs.mid
  let s0 := levelStep mx s1.1 qs.low
  let batch := s0.1.1
  let holdOff := pHold.holdOffFix + pHold.holdOffVar * (batch.length : ℚ)
  ⟨batch, ⟨s0.2, s1.2, s2.2⟩, s0.1.2,
   if batch.isEmpty then [] else [batch],
   holdOff,
   if 0 < holdOff then [holdOff] else []⟩

/-- One worker cycle with no setParams interleaved between the two paramLock
scopes: both snapshots come from the same parameter block state. -/
def runCycle (p : Params) (qs : Queues α) : CycleResult α :=
  runCycleTwo p p qs

/-- State of the left-to-right scan of the link-string splitter: the
finalized tokens, the current token, and whether a backslash has been read
whose effect is still undecided. -/
structure SplitState where
  done : List (List Char)
  cur : List Char
  pending : Bool
deriving DecidableEq

/-- Modelled from the spec: the implementation of splitString (declared in
linkParser.h, implementation not among the sources) is modelled from spec
section 4.3 together with the test corpus in
src/unitTestApp/src/LinkParserTest.cpp, which pins the escape semantics.
One scan step: an unescaped delimiter finalizes the current token; a
backslash immediately followed by the delimiter escapes that delimiter (the
backslash is dropped, the delimiter is appended literally, no token split);
a backslash followed by any other character stays in the token literally;
of a run of backslashes before a delimiter only the last one escapes. -/
def splitStep (delim : Char) (s : SplitState) (c : Char) : SplitState :=
  if s.pending then
    if c = delim then ⟨s.done, s.cur ++ [c], false⟩
    else if c = '\\' then ⟨s.done, s.cur ++ ['\\'], true⟩
    else ⟨s.done, s.cur ++ ['\\', c], false⟩
  else
    if c = delim then ⟨s.done ++ [s.cur], [], false⟩
    else if c = '\\' then ⟨s.done, s.cur, true⟩
    else ⟨s.done, s.cur ++ [c], false⟩

/-- End of string: a still-pending backslash stays in the token literally,
and the current token (possibly empty) is emitted. -/
def splitFinish (s : SplitState) : List (List Char) :=
  s.done ++ [s.cur ++ (if s.pending then ['\\'] else [])]

/-- Modelled from the spec: splitString (linkParser.h), as pinned by the
test corpus in src/unitTestApp/src/LinkParserTest.cpp.  Strings are
modelled as lists of characters; the default delimiter of the source is
the dot. -/
def splitString (str : List Char) (delim : Char) : List (List Char) :=
  splitFinish (str.foldl (splitStep delim) ⟨[], [], false⟩)

/-- Modelled from the spec: the alternative escaping rule asserted by the
spec (section 4.3, first bullet of the escape description): a backslash
causes the immediately following character, whatever it is, to be appended
literally to the current token, with the escaping backslash itself not
emitted.  Used to compare that rule against the test-pinned behavior. -/
def splitStepLiteralEscape (delim : Char) (s : SplitState) (c : Char) : SplitState :=
  if s.pending then ⟨s.done, s.cur ++ [c], false⟩
  else if c = '\\' then ⟨s.done, s.cur, true⟩
  else if c = delim then ⟨s.done ++ [s.cur], [], false⟩
  else ⟨s.done, s.cur ++ [c], false⟩

/-- Modelled from the spec: the splitter that would result from the
escape-any-next-character rule claimed in spec section 4.3. -/
def splitStringLiteralEscape (str : List Char) (delim : Char) : List (List Char) :=
  splitFinish (str.foldl (splitStepLiteralEscape delim) ⟨[], [], false⟩)

/-- The raw 23-character input of the test
LinkParserTest.splitString_seriesOfEscapedBackslashesAndDelimiters
(LinkParserTest.cpp, line 118). -/
def escInput : List Char := "one\\.\\.\\\\.two\\.\\.\\three".toList

/-- The expected single token of that test (LinkParserTest.cpp, line 122). -/
def escExpected : List Char := "one..\\.two..\\three".toList

/-- Number of items the collection loop takes from one queue: everything
when the limit is 0, otherwise the room left in the batch. -/
def takeCount (mx len : Nat) (q : List α) : Nat :=
  if mx = 0 then q.length else mx - len

theorem drainLoop_eq (mx : Nat) (batch q : List α) :
    drainLoop mx batch q =
      (batch ++ q.take (takeCount mx batch.length q),
       q.drop (takeCount mx batch.length q)) := by
  induction q generalizing batch with
  | nil => simp [drainLoop, takeCount]
  | cons x rest ih =>
    by_cases h0 : mx = 0
    · subst h0
      rw [drainLoop, if_pos (Or.inl rfl), ih]
      simp [takeCount]
    · by_cases hlt : batch.length < mx
      · rw [drainLoop, if_pos (Or.inr hlt), ih]
        have hc : mx - batch.length = (mx - (batch ++ [x]).length) + 1 := by
          simp only [List.length_append, List.length_cons, List.length_nil]
          omega
        simp only [takeCount, if_neg h0, hc, List.take_succ_cons, List.drop_succ_cons]
        simp
      · rw [drainLoop, if_neg (by push_neg; exact ⟨h0, Nat.le_of_not_lt hlt⟩)]
        have hc : mx - batch.length = 0 := by omega
        simp [takeCount, if_neg h0, hc]

theorem levelStep_eq (mx : Nat) (acc : List α × Bool) (q : List α) :
    levelStep mx acc q =
      ((acc.1 ++ q.take (takeCount mx acc.1.length q),
        acc.2 || !(q.drop (takeCount mx acc.1.length q)).isEmpty),
       q.drop (takeCount mx acc.1.length q)) := by
  unfold levelStep
  by_cases h : mx = 0 ∨ acc.1.length < mx
  · rw [if_pos h, drainLoop_eq]
  · rw [if_neg h]
    push_neg at h
    have hc : takeCount mx acc.1.length q = 0 := by
      simp [takeCount, if_neg h.1]
      omega
    simp [hc]

theorem pushSeq_low (qs : Queues α) (xs : List α) :
    pushSeq qs xs QueueLevel.low = ⟨qs.low ++ xs, qs.mid, qs.high⟩ := by
  induction xs generalizing qs with
  | nil => simp [pushSeq]
  | cons x rest ih =>
    show pushSeq (pushRequest qs x QueueLevel.low) rest QueueLevel.low = _
    rw [ih]
    simp [pushRequest]

theorem pushSeq_mid (qs : Queues α) (xs : List α) :
    pushSeq qs xs QueueLevel.mid = ⟨qs.low, qs.mid ++ xs, qs.high⟩ := by
  induction xs generalizing qs with
  | nil => simp [pushSeq]
  | cons x rest ih =>
    show pushSeq (pushRequest qs x QueueLevel.mid) rest QueueLevel.mid = _
    rw [ih]
    simp [pushRequest]

theorem pushSeq_high (qs : Queues α) (xs : List α) :
    pushSeq qs xs QueueLevel.high = ⟨qs.low, qs.mid, qs.high ++ xs⟩ := by
  induction xs generalizing qs with
  | nil => simp [pushSeq]
  | cons x rest ih =>
    show pushSeq (pushRequest qs x QueueLevel.high) rest QueueLevel.high = _
    rw [ih]
    simp [pushRequest]

/-- Items taken from the HIGH queue in one cycle. -/
def capHigh (mx : Nat) (qs : Queues α) : Nat := takeCount mx 0 qs.high

/-- Items taken from the MID queue in one cycle. -/
def capMid (mx : Nat) (qs : Queues α) : Nat :=
  takeCount mx (qs.high.take (capHigh mx qs)).length qs.mid

/-- Items taken from the LOW queue in one cycle. -/
def capLow (mx : Nat) (qs : Queues α) : Nat :=
  takeCount mx
    ((qs.high.take (capHigh mx qs)).length + (qs.mid.take (capMid mx qs)).length)
    qs.low

theorem runCycleTwo_batch (pCap pHold : Params) (qs : Queues α) :
    (runCycleTwo pCap pHold qs).batch =
      qs.high.take (capHigh pCap.maxBatchSize qs) ++
      (qs.mid.take (capMid pCap.maxBatchSize qs) ++
       qs.low.take (capLow pCap.maxBatchSize qs)) := by
  simp only [runCycleTwo, levelStep_eq]
  simp [capHigh, capMid, capLow, takeCount]

theorem runCycleTwo_queues (pCap pHold : Params) (qs : Queues α) :
    (runCycleTwo pCap pHold qs).queues =
      ⟨qs.low.drop (capLow pCap.maxBatchSize qs),
       qs.mid.drop (capMid pCap.maxBatchSize qs),
       qs.high.drop (capHigh pCap.maxBatchSize qs)⟩ := by
  simp only [runCycleTwo, levelStep_eq]
  simp [capHigh, capMid, capLow, takeCount]

theorem runCycleTwo_resignal (pCap pHold : Params) (qs : Queues α) :
    (runCycleTwo pCap pHold qs).resignal =
      ((!(qs.high.drop (capHigh pCap.maxBatchSize qs)).isEmpty ||
        !(qs.mid.drop (capMid pCap.maxBatchSize qs)).isEmpty) ||
       !(qs.low.drop (capLow pCap.maxBatchSize qs)).isEmpty) := by
  simp only [runCycleTwo, levelStep_eq]
  simp [capHigh, capMid, capLow, takeCount]

theorem runCycleTwo_deliveries (pCap pHold : Params) (qs : Queues α) :
    (runCycleTwo pCap pHold qs).deliveries =
      if (runCycleTwo pCap pHold qs).batch.isEmpty then []
      else [(runCycleTwo pCap pHold qs).batch] := rfl

theorem runCycleTwo_holdOff (pCap pHold : Params) (qs : Queues α) :
    (runCycleTwo pCap pHold qs).holdOff =
      pHold.holdOffFix +
        pHold.holdOffVar * (((runCycleTwo pCap pHold qs).batch.length : ℚ)) := rfl

theorem runCycleTwo_sleeps (pCap pHold : Params) (qs : Queues α) :
    (runCycleTwo pCap pHold qs).sleeps =
      if 0 < (runCycleTwo pCap pHold qs).holdOff
      then [(runCycleTwo pCap pHold qs).holdOff] else [] := rfl

theorem runCycleTwo_batch_nil_iff (pCap pHold : Params) (qs : Queues α) :
    (runCycleTwo pCap pHold qs).batch = [] ↔
      qs.high = [] ∧ qs.mid = [] ∧ qs.low = [] := by
  rw [runCycleTwo_batch]
  constructor
  · intro h
    rcases List.append_eq_nil.mp h with ⟨hh, hml⟩
    rcases List.append_eq_nil.mp hml with ⟨hm, hl⟩
    by_cases h0 : pCap.maxBatchSize = 0
    · have hhigh : qs.high = [] := by
        rcases List.take_eq_nil_iff.mp hh with hz | hz
        · simp [capHigh, takeCount, h0] at hz
          exact hz
        · exact hz
      have hmid : qs.mid = [] := by
        rcases List.take_eq_nil_iff.mp hm with hz | hz
        · simp [capMid, takeCount, h0] at hz
          exact hz
        · exact hz
      have hlow : qs.low = [] := by
        rcases List.take_eq_nil_iff.mp hl with hz | hz
        · simp [capLow, takeCount, h0] at hz
          exact hz
        · exact hz
      exact ⟨hhigh, hmid, hlow⟩
    · have hA : capHigh pCap.maxBatchSize qs = pCap.maxBatchSize := by
        simp [capHigh, takeCount, h0]
      have hhigh : qs.high = [] := by
        rcases List.take_eq_nil_iff.mp hh with hz | hz
        · rw [hA] at hz; exact absurd hz h0
        · exact hz
      have hB : capMid pCap.maxBatchSize qs = pCap.maxBatchSize := by
        simp [capMid, takeCount, h0, hhigh]
      have hmid : qs.mid = [] := by
        rcases List.take_eq_nil_iff.mp hm with hz | hz
        · rw [hB] at hz; exact absurd hz h0
        · exact hz
      have hC : capLow pCap.maxBatchSize qs = pCap.maxBatchSize := by
        simp [capLow, takeCount, h0, hhigh, hmid]
      have hlow : qs.low = [] := by
        rcases List.take_eq_nil_iff.mp hl with hz | hz
        · rw [hC] at hz; exact absurd hz h0
        · exact hz
      exact ⟨hhigh, hmid, hlow⟩
  · intro h
    simp [h.1, h.2.1, h.2.2]

/-- C3 counterexample: the claim says a setParams call with max_batch = 0
stores hold_var = 0 regardless of the earlier state; but after
setParams 2 0 4000 (which stores hold_var = 2) a further call
setParams 0 0 1000 leaves hold_var = 2, not 0, because the source only
assigns holdOffVar when maxRequestsPerBatch is nonzero. -/
theorem setParams_zero_batch_keeps_holdOffVar :
    (setParams (setParams ⟨0, 0, 0⟩ 2 0 4000) 0 0 1000).holdOffVar = 2 ∧
    ¬(setParams (setParams ⟨0, 0, 0⟩ 2 0 4000) 0 0 1000).holdOffVar = 0 := by
  constructor
  · norm_num [setParams]
  · norm_num [setParams]

/-- C3 (amended): after setParams(max_batch, min_hold_ms, max_hold_ms) the
stored hold_fix equals min_hold_ms/1000; the stored hold_var equals
(max_hold_ms - min_hold_ms)/(max_batch*1000) when max_batch > 0 and
max_hold_ms > 0, equals 0 when max_batch > 0 and max_hold_ms = 0, and
keeps its previous value when max_batch = 0. -/
theorem setParams_derived_values (p : Params) (mb mn mx : Nat) :
    (setParams p mb mn mx).maxBatchSize = mb ∧
    (setParams p mb mn mx).holdOffFix = (mn : ℚ) / 1000 ∧
    (0 < mb → 0 < mx →
      (setParams p mb mn mx).holdOffVar =
        ((mx : ℚ) - (mn : ℚ)) / ((mb : ℚ) * 1000)) ∧
    (0 < mb → mx = 0 → (setParams p mb mn mx).holdOffVar = 0) ∧
    (mb = 0 → (setParams p mb mn mx).holdOffVar = p.holdOffVar) := by
  refine ⟨rfl, rfl, ?_, ?_, ?_⟩
  · intro h1 h2
    simp [setParams, Nat.pos_iff_ne_zero.mp h1, Nat.pos_iff_ne_zero.mp h2]
  · intro h1 h2
    simp [setParams, Nat.pos_iff_ne_zero.mp h1, h2]
  · intro h
    simp [setParams, h]

/-- Witness for the amended C3 at concrete inputs. -/
theorem setParams_derived_values_witness :
    (setParams ⟨0, 0, 0⟩ 2 0 4000).holdOffVar = 2 ∧
    (setParams ⟨0, 0, 0⟩ 2 0 4000).holdOffFix = 0 := by
  have h := setParams_derived_values ⟨0, 0, 0⟩ 2 0 4000
  constructor
  · rw [h.2.2.1 (by norm_num) (by norm_num)]
    norm_num
  · rw [h.2.1]
    norm_num

/-- The ideal-arithmetic reconstruction identity behind the spec note: with
exact real arithmetic the stored values satisfy
hold_fix + hold_var * max_batch = max_hold_ms / 1000.  The accessors of the
source compute this through binary64 doubles; see the fl64-based theorems
below for the rounding-faithful statements. -/
theorem holdOff_ideal_identity (p : Params) (mb mn mx : Nat)
    (hmb : 0 < mb) (hmx : 0 < mx) :
    (setParams p mb mn mx).holdOffFix +
      (setParams p mb mn mx).holdOffVar * (mb : ℚ) = (mx : ℚ) / 1000 := by
  have hmb' : (mb : ℚ) ≠ 0 := Nat.cast_ne_zero.mpr (Nat.pos_iff_ne_zero.mp hmb)
  have hfix : (setParams p mb mn mx).holdOffFix = (mn : ℚ) / 1000 := rfl
  have hvar : (setParams p mb mn mx).holdOffVar =
      ((mx : ℚ) - (mn : ℚ)) / ((mb : ℚ) * 1000) := by
    simp [setParams, Nat.pos_iff_ne_zero.mp hmb, Nat.pos_iff_ne_zero.mp hmx]
  rw [hfix, hvar]
  field_simp
  ring

theorem abs_roundNearestEven_sub_le (m : ℚ) :
    |(roundNearestEven m : ℚ) - m| ≤ 1 / 2 := by
  have h1 : (⌊m⌋ : ℚ) ≤ m := Int.floor_le m
  have h2 : m < ⌊m⌋ + 1 := Int.lt_floor_add_one m
  unfold roundNearestEven
  by_cases hlt : m - (⌊m⌋ : ℚ) < 1 / 2
  · rw [if_pos hlt, abs_le]
    constructor <;> linarith
  · rw [if_neg hlt]
    by_cases hgt : 1 / 2 < m - (⌊m⌋ : ℚ)
    · rw [if_pos hgt, abs_le]
      push_cast
      constructor <;> linarith
    · rw [if_neg hgt]
      by_cases hev : ⌊m⌋ % 2 = 0
      · rw [if_pos hev, abs_le]
        constructor <;> linarith
      · rw [if_neg hev, abs_le]
        push_cast
        constructor <;> linarith

theorem abs_fl64Pos_sub_le {q : ℚ} (hq : 0 < q) :
    |fl64Pos q - q| ≤ q / 2 ^ 53 := by
  have hs : (0 : ℚ) < 2 ^ (Int.log 2 q - 52) := by positivity
  have hq2 : (q / 2 ^ (Int.log 2 q - 52)) * 2 ^ (Int.log 2 q - 52) = q :=
    div_mul_cancel₀ _ (ne_of_gt hs)
  have hb := abs_roundNearestEven_sub_le (q / 2 ^ (Int.log 2 q - 52))
  have key : fl64Pos q - q =
      ((roundNearestEven (q / 2 ^ (Int.log 2 q - 52)) : ℚ) -
        q / 2 ^ (Int.log 2 q - 52)) * 2 ^ (Int.log 2 q - 52) := by
    rw [fl64Pos, sub_mul, hq2]
  rw [key, abs_mul, abs_of_pos hs]
  have hlog : (2 : ℚ) ^ (Int.log 2 q) ≤ q := by
    have h := Int.zpow_log_le_self (b := 2) (by norm_num) hq
    exact_mod_cast h
  have hsplit : (2 : ℚ) ^ (Int.log 2 q - 52) = 2 ^ (Int.log 2 q) / 2 ^ (52 : ℤ) :=
    zpow_sub₀ (by norm_num) _ _
  have h52 : ((2 : ℚ) ^ (52 : ℤ)) = 2 ^ (52 : ℕ) := by norm_num
  calc |(roundNearestEven (q / 2 ^ (Int.log 2 q - 52)) : ℚ) -
          q / 2 ^ (Int.log 2 q - 52)| * 2 ^ (Int.log 2 q - 52)
      ≤ 1 / 2 * 2 ^ (Int.log 2 q - 52) := by
        apply mul_le_mul_of_nonneg_right hb hs.le
    _ = 2 ^ (Int.log 2 q) / 2 ^ (53 : ℕ) := by
        rw [hsplit, h52, pow_succ]
        ring
    _ ≤ q / 2 ^ (53 : ℕ) := by
        apply div_le_div_of_nonneg_right hlog
        norm_num

theorem abs_fl64_sub_le (q : ℚ) : |fl64 q - q| ≤ |q| / 2 ^ 53 := by
  unfold fl64
  rcases lt_trichotomy q 0 with h | h | h
  · rw [if_neg (by linarith), if_pos h, abs_of_neg h]
    have hb := abs_fl64Pos_sub_le (q := -q) (by linarith)
    rw [show -fl64Pos (-q) - q = -(fl64Pos (-q) - (-q)) by ring, abs_neg]
    exact hb
  · subst h
    simp
  · rw [if_pos h, abs_of_pos h]
    exact abs_fl64Pos_sub_le h

theorem fl64_nonneg {q : ℚ} (hq : 0 ≤ q) : 0 ≤ fl64 q := by
  rcases eq_or_lt_of_le hq with h | h
  · rw [← h]
    simp [fl64]
  · have hb := abs_fl64_sub_le q
    rw [abs_of_pos h] at hb
    have h1 := (abs_le.mp hb).1
    have h2 : q / 2 ^ 53 ≤ q := by
      apply div_le_self h.le
      norm_num
    linarith

theorem trunc_double_reconstruct_bracket (n : Nat) (hn : (n : ℚ) ≤ 4294967296) :
    n - 1 ≤ (⌊fl64 (fl64 ((n : ℚ) / 1000) * 1000)⌋).toNat ∧
    (⌊fl64 (fl64 ((n : ℚ) / 1000) * 1000)⌋).toNat ≤ n := by
  have hn0 : (0 : ℚ) ≤ (n : ℚ) := Nat.cast_nonneg n
  have ha0 : (0 : ℚ) ≤ (n : ℚ) / 1000 := by positivity
  have hf0 : 0 ≤ fl64 ((n : ℚ) / 1000) := fl64_nonneg ha0
  have h1 := abs_fl64_sub_le ((n : ℚ) / 1000)
  rw [abs_of_nonneg ha0] at h1
  have h2 := abs_fl64_sub_le (fl64 ((n : ℚ) / 1000) * 1000)
  rw [abs_of_nonneg (show (0 : ℚ) ≤ fl64 ((n : ℚ) / 1000) * 1000 by positivity)] at h2
  obtain ⟨h1a, h1b⟩ := abs_le.mp h1
  obtain ⟨h2a, h2b⟩ := abs_le.mp h2
  have hlow : (n : ℚ) - 1 / 2 < fl64 (fl64 ((n : ℚ) / 1000) * 1000) := by
    nlinarith [h1a, h1b, h2a, h2b, hn, hn0, hf0]
  have hhigh : fl64 (fl64 ((n : ℚ) / 1000) * 1000) < (n : ℚ) + 1 / 2 := by
    nlinarith [h1a, h1b, h2a, h2b, hn, hn0, hf0]
  have hfl1 : (n : ℤ) - 1 ≤ ⌊fl64 (fl64 ((n : ℚ) / 1000) * 1000)⌋ := by
    apply Int.le_floor.mpr
    push_cast
    linarith
  have hfl2 : ⌊fl64 (fl64 ((n : ℚ) / 1000) * 1000)⌋ ≤ (n : ℤ) := by
    have h := Int.floor_lt.mpr
      (show fl64 (fl64 ((n : ℚ) / 1000) * 1000) < (((n : ℤ) + 1 : ℤ) : ℚ) by
        push_cast; linarith)
    omega
  constructor <;> omega

theorem chain_error_main (mnQ mxQ mbQ fixd vard t1 t2 v : ℚ)
    (hmn0 : 0 ≤ mnQ) (hmx0 : 0 ≤ mxQ)
    (hmn : mnQ ≤ 4294967296) (hmx : mxQ ≤ 4294967296)
    (e1 : |fixd - mnQ / 1000| ≤ (mnQ / 1000) / 2 ^ 53)
    (e2 : |vard * mbQ - (mxQ - mnQ) / 1000| ≤ ((4294967296 : ℚ) / 1000) / 2 ^ 53)
    (e3 : |t1 - vard * mbQ| ≤ |vard * mbQ| / 2 ^ 53)
    (e4 : |t2 - (fixd + t1)| ≤ |fixd + t1| / 2 ^ 53)
    (e5 : |v - t2 * 1000| ≤ |t2 * 1000| / 2 ^ 53) :
    mxQ - 1 / 2 < v ∧ v < mxQ + 1 / 2 := by
  obtain ⟨e1a, e1b⟩ := abs_le.mp e1
  obtain ⟨e2a, e2b⟩ := abs_le.mp e2
  have habsw : |vard * mbQ| ≤ 5000000 := by
    rw [abs_le]
    constructor <;> linarith
  have e3c : |t1 - vard * mbQ| ≤ 5000000 / 2 ^ 53 := by
    refine le_trans e3 ?_
    apply div_le_div_of_nonneg_right habsw
    norm_num
  obtain ⟨e3a, e3b⟩ := abs_le.mp e3c
  obtain ⟨ewa, ewb⟩ := abs_le.mp habsw
  have habssum : |fixd + t1| ≤ 11000000 := by
    rw [abs_le]
    constructor <;> linarith
  have e4c : |t2 - (fixd + t1)| ≤ 11000000 / 2 ^ 53 := by
    refine le_trans e4 ?_
    apply div_le_div_of_nonneg_right habssum
    norm_num
  obtain ⟨e4a, e4b⟩ := abs_le.mp e4c
  obtain ⟨esa, esb⟩ := abs_le.mp habssum
  have habst2 : |t2 * 1000| ≤ 12000000000 := by
    rw [abs_le]
    constructor <;> linarith
  have e5c : |v - t2 * 1000| ≤ 12000000000 / 2 ^ 53 := by
    refine le_trans e5 ?_
    apply div_le_div_of_nonneg_right habst2
    norm_num
  obtain ⟨e5a, e5b⟩ := abs_le.mp e5c
  constructor <;> linarith

theorem trunc_chain_reconstruct_bracket (mb mn mx : Nat) (hmb : 0 < mb)
    (hmn : (mn : ℚ) ≤ 4294967296) (hmx : (mx : ℚ) ≤ 4294967296) :
    mx - 1 ≤ (⌊fl64 (fl64 (fl64 ((mn : ℚ) / 1000) +
        fl64 (fl64 (((mx : ℚ) - (mn : ℚ)) / ((mb : ℚ) * 1000)) * (mb : ℚ))) *
        1000)⌋).toNat ∧
    (⌊fl64 (fl64 (fl64 ((mn : ℚ) / 1000) +
        fl64 (fl64 (((mx : ℚ) - (mn : ℚ)) / ((mb : ℚ) * 1000)) * (mb : ℚ))) *
        1000)⌋).toNat ≤ mx := by
  have hmbQ : (0 : ℚ) < (mb : ℚ) := by exact_mod_cast hmb
  have hmn0 : (0 : ℚ) ≤ (mn : ℚ) := Nat.cast_nonneg mn
  have hmx0 : (0 : ℚ) ≤ (mx : ℚ) := Nat.cast_nonneg mx
  set d : ℚ := ((mx : ℚ) - (mn : ℚ)) / ((mb : ℚ) * 1000) with hd_def
  set fixd : ℚ := fl64 ((mn : ℚ) / 1000) with hfixd_def
  set vard : ℚ := fl64 d with hvard_def
  set t1 : ℚ := fl64 (vard * (mb : ℚ)) with ht1_def
  set t2 : ℚ := fl64 (fixd + t1) with ht2_def
  set v : ℚ := fl64 (t2 * 1000) with hv_def
  have e1 := abs_fl64_sub_le ((mn : ℚ) / 1000)
  rw [← hfixd_def,
    abs_of_nonneg (show (0 : ℚ) ≤ (mn : ℚ) / 1000 by positivity)] at e1
  have e2 := abs_fl64_sub_le d
  rw [← hvard_def] at e2
  have hDd : d * (mb : ℚ) = ((mx : ℚ) - (mn : ℚ)) / 1000 := by
    rw [hd_def]
    field_simp
    ring
  have e2w : |vard * (mb : ℚ) - ((mx : ℚ) - (mn : ℚ)) / 1000| ≤
      ((4294967296 : ℚ) / 1000) / 2 ^ 53 := by
    have hstep : |vard * (mb : ℚ) - ((mx : ℚ) - (mn : ℚ)) / 1000| =
        |vard - d| * (mb : ℚ) := by
      rw [← hDd, ← sub_mul, abs_mul, abs_of_pos hmbQ]
    rw [hstep]
    have hstep2 : |vard - d| * (mb : ℚ) ≤ (|d| / 2 ^ 53) * (mb : ℚ) :=
      mul_le_mul_of_nonneg_right e2 hmbQ.le
    refine le_trans hstep2 ?_
    have hr : (|d| / 2 ^ 53) * (mb : ℚ) = (|d| * |(mb : ℚ)|) / 2 ^ 53 := by
      rw [abs_of_pos hmbQ]
      ring
    rw [hr, ← abs_mul, hDd]
    apply div_le_div_of_nonneg_right ?_ (by norm_num)
    rw [abs_le]
    constructor <;> linarith
  have e3 := abs_fl64_sub_le (vard * (mb : ℚ))
  rw [← ht1_def] at e3
  have e4 := abs_fl64_sub_le (fixd + t1)
  rw [← ht2_def] at e4
  have e5 := abs_fl64_sub_le (t2 * 1000)
  rw [← hv_def] at e5
  obtain ⟨hlow, hhigh⟩ :=
    chain_error_main (mn : ℚ) (mx : ℚ) (mb : ℚ) fixd vard t1 t2 v
      hmn0 hmx0 hmn hmx e1 e2w e3 e4 e5
  have hfl1 : (mx : ℤ) - 1 ≤ ⌊v⌋ := Int.le_floor.mpr (by push_cast; linarith)
  have hfl2 : ⌊v⌋ ≤ (mx : ℤ) := by
    have h := Int.floor_lt.mpr
      (show v < (((mx : ℤ) + 1 : ℤ) : ℚ) by push_cast; linarith)
    omega
  constructor <;> omega

theorem log2_eq {q : ℚ} (z : ℤ) (hq : 0 < q) (h1 : (2 : ℚ) ^ z ≤ q)
    (h2 : q < (2 : ℚ) ^ (z + 1)) : Int.log 2 q = z := by
  have hle : z ≤ Int.log 2 q := by
    apply (Int.zpow_le_iff_le_log (b := 2) (by norm_num) hq).mp
    exact_mod_cast h1
  have hlt : Int.log 2 q < z + 1 := by
    apply (Int.lt_zpow_iff_log_lt (b := 2) (by norm_num) hq).mp
    exact_mod_cast h2
  omega

theorem roundNearestEven_eq_down {m : ℚ} {f : ℤ} (h1 : (f : ℚ) ≤ m)
    (h2 : m - (f : ℚ) < 1 / 2) : roundNearestEven m = f := by
  have hfl : ⌊m⌋ = f := Int.floor_eq_iff.mpr ⟨h1, by linarith⟩
  unfold roundNearestEven
  rw [hfl, if_pos h2]

theorem roundNearestEven_eq_up {m : ℚ} {f : ℤ} (h1 : (f : ℚ) ≤ m)
    (h2 : m < (f : ℚ) + 1) (h3 : 1 / 2 < m - (f : ℚ)) :
    roundNearestEven m = f + 1 := by
  have hfl : ⌊m⌋ = f := Int.floor_eq_iff.mpr ⟨h1, by linarith⟩
  unfold roundNearestEven
  rw [hfl, if_neg (by linarith), if_pos h3]

theorem fl64_eq_pos {q : ℚ} (z k : ℤ) (hq : 0 < q) (h1 : (2 : ℚ) ^ z ≤ q)
    (h2 : q < (2 : ℚ) ^ (z + 1))
    (hk : roundNearestEven (q / 2 ^ (z - 52)) = k) :
    fl64 q = (k : ℚ) * 2 ^ (z - 52) := by
  rw [fl64, if_pos hq, fl64Pos, log2_eq z hq h1 h2, hk]

theorem fl64_eval_1001 :
    fl64 ((1001 : ℚ) / 1000) = 2254051613498933 / 2251799813685248 := by
  have hk : roundNearestEven (((1001 : ℚ) / 1000) / 2 ^ ((0 : ℤ) - 52)) =
      4508103226997866 :=
    roundNearestEven_eq_down (by norm_num) (by norm_num)
  rw [fl64_eq_pos 0 4508103226997866 (by norm_num) (by norm_num) (by norm_num) hk]
  norm_num

theorem fl64_eval_1001b :
    fl64 ((2254051613498933 : ℚ) / 2251799813685248 * 1000) =
      8804889115230207 / 8796093022208 := by
  have hk : roundNearestEven (((2254051613498933 : ℚ) / 2251799813685248 * 1000) /
      2 ^ ((9 : ℤ) - 52)) = 8804889115230207 :=
    roundNearestEven_eq_down (by norm_num) (by norm_num)
  rw [fl64_eq_pos 9 8804889115230207 (by norm_num) (by norm_num) (by norm_num) hk]
  norm_num

theorem fl64_eval_fix10 :
    fl64 ((1 : ℚ) / 100) = 5764607523034235 / 576460752303423488 := by
  have hk : roundNearestEven (((1 : ℚ) / 100) / 2 ^ ((-7 : ℤ) - 52)) =
      5764607523034234 + 1 :=
    roundNearestEven_eq_up (by norm_num) (by norm_num) (by norm_num)
  rw [fl64_eq_pos (-7) (5764607523034234 + 1) (by norm_num) (by norm_num)
    (by norm_num) hk]
  norm_num

theorem fl64_eval_var :
    fl64 ((91 : ℚ) / 3000) = 8742988076601923 / 288230376151711744 := by
  have hk : roundNearestEven (((91 : ℚ) / 3000) / 2 ^ ((-6 : ℤ) - 52)) =
      8742988076601922 + 1 :=
    roundNearestEven_eq_up (by norm_num) (by norm_num) (by norm_num)
  rw [fl64_eq_pos (-6) (8742988076601922 + 1) (by norm_num) (by norm_num)
    (by norm_num) hk]
  norm_num

theorem fl64_eval_t1 :
    fl64 ((8742988076601923 : ℚ) / 288230376151711744 * 3) =
      6557241057451442 / 72057594037927936 := by
  have hk : roundNearestEven (((8742988076601923 : ℚ) / 288230376151711744 * 3) /
      2 ^ ((-4 : ℤ) - 52)) = 6557241057451442 :=
    roundNearestEven_eq_down (by norm_num) (by norm_num)
  rw [fl64_eq_pos (-4) 6557241057451442 (by norm_num) (by norm_num)
    (by norm_num) hk]
  norm_num

theorem fl64_eval_t2 :
    fl64 ((5764607523034235 : ℚ) / 576460752303423488 +
        6557241057451442 / 72057594037927936) =
      7277816997830721 / 72057594037927936 := by
  have hk : roundNearestEven (((5764607523034235 : ℚ) / 576460752303423488 +
      6557241057451442 / 72057594037927936) / 2 ^ ((-4 : ℤ) - 52)) =
      7277816997830721 :=
    roundNearestEven_eq_down (by norm_num) (by norm_num)
  rw [fl64_eq_pos (-4) 7277816997830721 (by norm_num) (by norm_num)
    (by norm_num) hk]
  norm_num

theorem fl64_eval_v :
    fl64 ((7277816997830721 : ℚ) / 72057594037927936 * 1000) =
      7107243161944063 / 70368744177664 := by
  have hk : roundNearestEven (((7277816997830721 : ℚ) / 72057594037927936 * 1000) /
      2 ^ ((6 : ℤ) - 52)) = 7107243161944063 :=
    roundNearestEven_eq_down (by norm_num) (by norm_num)
  rw [fl64_eq_pos 6 7107243161944063 (by norm_num) (by norm_num)
    (by norm_num) hk]
  norm_num

/-- C6 counterexample: the exact round-trip fails on the binary64 chain of
the source.  After setParams(3, 1001, 4000) the accessor minHoldOff computes
trunc(fl(fl(1001/1e3)*1e3)) = trunc(1000.99999999999988) = 1000, not 1001;
after setParams(3, 10, 101) the accessor maxHoldOff computes
trunc(fl(fl(fl(10/1e3) + fl(fl(91/3e3)*3))*1e3)) = trunc(100.99999999999998)
= 100, not 101. -/
theorem holdOff_fp_counterexample :
    minHoldOffFP (setParamsFP ⟨0, 0, 0⟩ 3 1001 4000) = 1000 ∧ (1000 : Nat) ≠ 1001 ∧
    maxHoldOffFP (setParamsFP ⟨0, 0, 0⟩ 3 10 101) = 100 ∧ (100 : Nat) ≠ 101 := by
  refine ⟨?_, by decide, ?_, by decide⟩
  · have hfix : (setParamsFP (⟨0, 0, 0⟩ : Params) 3 1001 4000).holdOffFix =
        fl64 ((1001 : ℚ) / 1000) := by
      norm_num [setParamsFP]
    unfold minHoldOffFP
    rw [hfix, fl64_eval_1001, fl64_eval_1001b]
    have hfloor : ⌊(8804889115230207 : ℚ) / 8796093022208⌋ = 1000 :=
      Int.floor_eq_iff.mpr ⟨by norm_num, by norm_num⟩
    rw [hfloor]
    rfl
  · have hfix : (setParamsFP (⟨0, 0, 0⟩ : Params) 3 10 101).holdOffFix =
        fl64 ((1 : ℚ) / 100) := by
      norm_num [setParamsFP]
    have hvar : (setParamsFP (⟨0, 0, 0⟩ : Params) 3 10 101).holdOffVar =
        fl64 ((91 : ℚ) / 3000) := by
      norm_num [setParamsFP]
    have hsize : (((setParamsFP (⟨0, 0, 0⟩ : Params) 3 10 101).maxBatchSize : Nat) : ℚ) =
        3 := by
      norm_num [setParamsFP]
    unfold maxHoldOffFP
    rw [hfix, hvar, hsize, fl64_eval_var, fl64_eval_fix10, fl64_eval_t1,
      fl64_eval_t2, fl64_eval_v]
    have hfloor : ⌊(7107243161944063 : ℚ) / 70368744177664⌋ = 100 :=
      Int.floor_eq_iff.mpr ⟨by norm_num, by norm_num⟩
    rw [hfloor]
    rfl

/-- C6 (amended): after setParams with max_batch > 0 and max_hold_ms > 0
(all parameters in the unsigned-int range), the milliseconds values
reconstituted by the accessors through binary64 doubles and the truncating
cast are within one of the set values: minHoldOff() returns min_hold_ms or
min_hold_ms - 1, and maxHoldOff() returns max_hold_ms or max_hold_ms - 1;
the round-trip is not exact in general (1000 for min_hold_ms = 1001, 100
for setParams(3, 10, 101)), while in exact real arithmetic the
reconstruction identity holds. -/
theorem holdOff_reconstruction_within_one (p : Params) (mb mn mx : Nat)
    (hmb : 0 < mb) (hmx : 0 < mx) (hmn32 : mn < 4294967296)
    (hmx32 : mx < 4294967296) :
    mn - 1 ≤ minHoldOffFP (setParamsFP p mb mn mx) ∧
    minHoldOffFP (setParamsFP p mb mn mx) ≤ mn ∧
    mx - 1 ≤ maxHoldOffFP (setParamsFP p mb mn mx) ∧
    maxHoldOffFP (setParamsFP p mb mn mx) ≤ mx := by
  have hmnQ : (mn : ℚ) ≤ 4294967296 := by
    have h : (mn : ℚ) < 4294967296 := by exact_mod_cast hmn32
    linarith
  have hmxQ : (mx : ℚ) ≤ 4294967296 := by
    have h : (mx : ℚ) < 4294967296 := by exact_mod_cast hmx32
    linarith
  have hfix : (setParamsFP p mb mn mx).holdOffFix = fl64 ((mn : ℚ) / 1000) := rfl
  have hvar : (setParamsFP p mb mn mx).holdOffVar =
      fl64 (((mx : ℚ) - (mn : ℚ)) / ((mb : ℚ) * 1000)) := by
    simp [setParamsFP, Nat.pos_iff_ne_zero.mp hmb, Nat.pos_iff_ne_zero.mp hmx]
  have hsize : (((setParamsFP p mb mn mx).maxBatchSize : Nat) : ℚ) = (mb : ℚ) := rfl
  have hminFP : minHoldOffFP (setParamsFP p mb mn mx) =
      (⌊fl64 (fl64 ((mn : ℚ) / 1000) * 1000)⌋).toNat := by
    unfold minHoldOffFP
    rw [hfix]
  have hmaxFP : maxHoldOffFP (setParamsFP p mb mn mx) =
      (⌊fl64 (fl64 (fl64 ((mn : ℚ) / 1000) +
        fl64 (fl64 (((mx : ℚ) - (mn : ℚ)) / ((mb : ℚ) * 1000)) * (mb : ℚ))) *
        1000)⌋).toNat := by
    unfold maxHoldOffFP
    rw [hfix, hvar, hsize]
  rw [hminFP, hmaxFP]
  obtain ⟨ha, hb⟩ := trunc_double_reconstruct_bracket mn hmnQ
  obtain ⟨hc, hd⟩ := trunc_chain_reconstruct_bracket mb mn mx hmb hmnQ hmxQ
  exact ⟨ha, hb, hc, hd⟩

/-- Witness for the amended C6 at the concrete inputs of the
counterexample. -/
theorem holdOff_reconstruction_within_one_witness :
    0 < 3 ∧ 0 < 101 ∧ (3 : Nat) < 4294967296 ∧ (10 : Nat) < 4294967296 ∧
    (101 : Nat) < 4294967296 ∧
    (10 - 1 ≤ minHoldOffFP (setParamsFP ⟨0, 0, 0⟩ 3 10 101) ∧
     minHoldOffFP (setParamsFP ⟨0, 0, 0⟩ 3 10 101) ≤ 10 ∧
     101 - 1 ≤ maxHoldOffFP (setParamsFP ⟨0, 0, 0⟩ 3 10 101) ∧
     maxHoldOffFP (setParamsFP ⟨0, 0, 0⟩ 3 10 101) ≤ 101) :=
  ⟨by decide, by decide, by decide, by decide, by decide,
   holdOff_reconstruction_within_one ⟨0, 0, 0⟩ 3 10 101 (by decide) (by decide)
     (by decide) (by decide)⟩

/-- C10: when the stored maxBatchSize is 0 (unlimited batches) the accessor
maxHoldOff returns the same value as minHoldOff, whatever hold_var a
previous setParams call left stored. -/
theorem maxHoldOff_eq_minHoldOff_of_unlimited (p : Params)
    (h : p.maxBatchSize = 0) : maxHoldOff p = minHoldOff p := by
  unfold maxHoldOff minHoldOff
  rw [h]
  norm_num

/-- Witness for C10 at a concrete parameter block with nonzero hold_var. -/
theorem maxHoldOff_eq_minHoldOff_of_unlimited_witness :
    maxHoldOff ⟨0, 7, 2⟩ = minHoldOff ⟨0, 7, 2⟩ :=
  maxHoldOff_eq_minHoldOff_of_unlimited ⟨0, 7, 2⟩ rfl

/-- C1: for queues filled by pushRequest calls (hs into HIGH, ms into MID,
ls into LOW, each in FIFO order), the batch delivered by one worker cycle is
a prefix of the HIGH items, followed by a prefix of the MID items, followed
by a prefix of the LOW items: all HIGH items first, then MID, then LOW, and
within each priority in the order pushRequest enqueued them. -/
theorem batch_priority_and_fifo (p : Params) (hs ms ls : List α) :
    ∃ a b c,
      (runCycle p (pushSeq (pushSeq (pushSeq ⟨[], [], []⟩ ls QueueLevel.low)
          ms QueueLevel.mid) hs QueueLevel.high)).batch =
        hs.take a ++ ms.take b ++ ls.take c := by
  have hq : pushSeq (pushSeq (pushSeq (⟨[], [], []⟩ : Queues α) ls QueueLevel.low)
      ms QueueLevel.mid) hs QueueLevel.high = ⟨ls, ms, hs⟩ := by
    rw [pushSeq_low, pushSeq_mid, pushSeq_high]
    rfl
  rw [hq]
  unfold runCycle
  refine ⟨capHigh p.maxBatchSize ⟨ls, ms, hs⟩, capMid p.maxBatchSize ⟨ls, ms, hs⟩,
    capLow p.maxBatchSize ⟨ls, ms, hs⟩, ?_⟩
  rw [runCycleTwo_batch]
  simp [List.append_assoc]

/-- C2: whenever the snapshot of max_batch taken by the cycle is non-zero,
the assembled batch holds at most max_batch items. -/
theorem batch_size_le_cap (p : Params) (qs : Queues α)
    (h : p.maxBatchSize ≠ 0) :
    (runCycle p qs).batch.length ≤ p.maxBatchSize := by
  unfold runCycle
  rw [runCycleTwo_batch]
  have e1 : capHigh p.maxBatchSize qs = p.maxBatchSize := by
    simp [capHigh, takeCount, h]
  have e2 : capMid p.maxBatchSize qs =
      p.maxBatchSize - (qs.high.take (capHigh p.maxBatchSize qs)).length := by
    simp [capMid, takeCount, h]
  have e3 : capLow p.maxBatchSize qs =
      p.maxBatchSize - ((qs.high.take (capHigh p.maxBatchSize qs)).length +
        (qs.mid.take (capMid p.maxBatchSize qs)).length) := by
    simp [capLow, takeCount, h]
  simp only [List.length_append, List.length_take] at e1 e2 e3 ⊢
  omega

/-- Witness for C2 at a concrete overfull queue. -/
theorem batch_size_le_cap_witness :
    (2 : Nat) ≠ 0 ∧
    (runCycle (⟨2, 0, 0⟩ : Params)
      (⟨[0, 1, 2], [], []⟩ : Queues Nat)).batch.length ≤ 2 :=
  ⟨by decide, batch_size_le_cap ⟨2, 0, 0⟩ ⟨[0, 1, 2], [], []⟩ (by decide)⟩

/-- C4: the worker re-signals the wake event within a cycle exactly when
some queue is left non-empty after draining, and in that case a further
cycle run on the residual queues (with no producer activity in between)
assembles a non-empty batch, so no item sits forever behind the cap. -/
theorem residue_resignal (p : Params) (qs : Queues α) :
    ((runCycle p qs).resignal = true ↔
      ¬((runCycle p qs).queues.high = [] ∧ (runCycle p qs).queues.mid = [] ∧
        (runCycle p qs).queues.low = [])) ∧
    ((runCycle p qs).resignal = true →
      (runCycle p ((runCycle p qs).queues)).batch ≠ []) := by
  unfold runCycle
  have hiff : (runCycleTwo p p qs).resignal = true ↔
      ¬((runCycleTwo p p qs).queues.high = [] ∧
        (runCycleTwo p p qs).queues.mid = [] ∧
        (runCycleTwo p p qs).queues.low = []) := by
    rw [runCycleTwo_resignal, runCycleTwo_queues]
    simp [List.isEmpty_iff]
    omega
  refine ⟨hiff, fun h => fun hnil => ?_⟩
  exact (hiff.mp h) ((runCycleTwo_batch_nil_iff p p _).mp hnil)

/-- Witness for C4: cap 1 with two LOW items queued yields a re-signal and
the next cycle picks up the leftover item. -/
theorem residue_resignal_witness :
    (runCycle (⟨1, 0, 0⟩ : Params) (⟨[10, 20], [], []⟩ : Queues Nat)).resignal
        = true ∧
    (runCycle (⟨1, 0, 0⟩ : Params)
      ((runCycle (⟨1, 0, 0⟩ : Params)
        (⟨[10, 20], [], []⟩ : Queues Nat)).queues)).batch ≠ [] := by
  have h := residue_resignal (⟨1, 0, 0⟩ : Params) (⟨[10, 20], [], []⟩ : Queues Nat)
  have hr : (runCycle (⟨1, 0, 0⟩ : Params)
      (⟨[10, 20], [], []⟩ : Queues Nat)).resignal = true := by decide
  exact ⟨hr, h.2 hr⟩

/-- C5: processRequests is called exactly when the assembled batch is
non-empty (the delivery trace holds the batch iff it is non-empty), and on
a wake with all three queues empty no batch is delivered, the computed
hold-off equals hold_fix (the variable term is zero), and sleep is invoked
with hold_fix exactly when hold_fix is positive. -/
theorem delivery_iff_nonempty_batch (p : Params) (qs : Queues α) :
    ((runCycle p qs).deliveries =
       if (runCycle p qs).batch.isEmpty then [] else [(runCycle p qs).batch]) ∧
    ((runCycle p qs).deliveries ≠ [] ↔ (runCycle p qs).batch ≠ []) ∧
    (qs.high = [] ∧ qs.mid = [] ∧ qs.low = [] →
      (runCycle p qs).deliveries = [] ∧
      (runCycle p qs).holdOff = p.holdOffFix ∧
      (runCycle p qs).sleeps =
        (if 0 < p.holdOffFix then [p.holdOffFix] else [])) := by
  unfold runCycle
  have hdel : (runCycleTwo p p qs).deliveries =
      if (runCycleTwo p p qs).batch.isEmpty then []
      else [(runCycleTwo p p qs).batch] := rfl
  refine ⟨hdel, ?_, fun h => ?_⟩
  · by_cases hb : (runCycleTwo p p qs).batch = []
    · simp [hdel, hb]
    · simp [hdel, hb]
  · have hb : (runCycleTwo p p qs).batch = [] :=
      (runCycleTwo_batch_nil_iff p p qs).mpr h
    have hh : (runCycleTwo p p qs).holdOff = p.holdOffFix := by
      have hoff := runCycleTwo_holdOff p p qs
      rw [hb] at hoff
      simpa using hoff
    refine ⟨by simp [hdel, hb], hh, ?_⟩
    have hs := runCycleTwo_sleeps p p qs
    rw [hh] at hs
    exact hs

/-- Witness for C5 on a wake with all queues empty and hold_fix = 1/2 s. -/
theorem delivery_iff_nonempty_batch_witness :
    (runCycle (⟨4, 0, 1/2⟩ : Params) (⟨[], [], []⟩ : Queues Nat)).deliveries
        = [] ∧
    (runCycle (⟨4, 0, 1/2⟩ : Params) (⟨[], [], []⟩ : Queues Nat)).holdOff =
      (⟨4, 0, 1/2⟩ : Params).holdOffFix ∧
    (runCycle (⟨4, 0, 1/2⟩ : Params) (⟨[], [], []⟩ : Queues Nat)).sleeps =
      (if 0 < (⟨4, 0, 1/2⟩ : Params).holdOffFix
       then [(⟨4, 0, 1/2⟩ : Params).holdOffFix] else []) :=
  (delivery_iff_nonempty_batch (⟨4, 0, 1/2⟩ : Params)
    (⟨[], [], []⟩ : Queues Nat)).2.2 ⟨rfl, rfl, rfl⟩

/-- C7 (amended): run() reads the parameter block under paramLock twice per
cycle: max_batch in a first acquisition before collecting, hold_fix and
hold_var in a second acquisition after delivery.  Each read is individually
consistent, the whole collection uses only the first snapshot and the whole
hold-off computation uses only the second; but the two snapshots need not
agree when a setParams call is interleaved between them. -/
theorem cycle_uses_two_param_snapshots (pCap pHold : Params) (qs : Queues α) :
    (runCycleTwo pCap pHold qs).batch = (runCycle pCap qs).batch ∧
    (runCycleTwo pCap pHold qs).queues = (runCycle pCap qs).queues ∧
    (runCycleTwo pCap pHold qs).resignal = (runCycle pCap qs).resignal ∧
    (runCycleTwo pCap pHold qs).deliveries = (runCycle pCap qs).deliveries ∧
    (runCycleTwo pCap pHold qs).holdOff =
      pHold.holdOffFix +
        pHold.holdOffVar * (((runCycleTwo pCap pHold qs).batch.length : ℚ)) :=
  ⟨rfl, rfl, rfl, rfl, rfl⟩

/-- C7 counterexample: with parameter block ⟨2, 0, 0⟩ at the first paramLock
acquisition and setParams 7 5000 0 interleaved before the second, the cycle
over five queued LOW items delivers a batch of 2 (cap of the first snapshot)
yet computes a 5 s hold-off (hold values of the second); its batch matches
neither the batch nor the hold-off of a cycle run under a single snapshot,
so the cycle combined values from two different snapshots. -/
theorem cycle_torn_snapshot_counterexample :
    (runCycleTwo ⟨2, 0, 0⟩ (setParams ⟨2, 0, 0⟩ 7 5000 0)
        (⟨[1, 2, 3, 4, 5], [], []⟩ : Queues Nat)).batch = [1, 2] ∧
    (runCycleTwo ⟨2, 0, 0⟩ (setParams ⟨2, 0, 0⟩ 7 5000 0)
        (⟨[1, 2, 3, 4, 5], [], []⟩ : Queues Nat)).holdOff = 5 ∧
    (runCycle (⟨2, 0, 0⟩ : Params)
        (⟨[1, 2, 3, 4, 5], [], []⟩ : Queues Nat)).holdOff = 0 ∧
    (runCycle (setParams ⟨2, 0, 0⟩ 7 5000 0)
        (⟨[1, 2, 3, 4, 5], [], []⟩ : Queues Nat)).batch = [1, 2, 3, 4, 5] := by
  have hfix : (setParams (⟨2, 0, 0⟩ : Params) 7 5000 0).holdOffFix = 5 := by
    norm_num [setParams]
  have hvar : (setParams (⟨2, 0, 0⟩ : Params) 7 5000 0).holdOffVar = 0 := by
    norm_num [setParams]
  have hbatch : (runCycleTwo ⟨2, 0, 0⟩ (setParams ⟨2, 0, 0⟩ 7 5000 0)
      (⟨[1, 2, 3, 4, 5], [], []⟩ : Queues Nat)).batch = [1, 2] := by decide
  refine ⟨hbatch, ?_, ?_, by decide⟩
  · rw [runCycleTwo_holdOff, hbatch, hfix, hvar]
    norm_num
  · have hb : (runCycle (⟨2, 0, 0⟩ : Params)
        (⟨[1, 2, 3, 4, 5], [], []⟩ : Queues Nat)).batch = [1, 2] := by decide
    unfold runCycle
    rw [runCycleTwo_holdOff]
    unfold runCycle at hb
    rw [hb]
    norm_num

theorem splitStep_escape_delim (d : Char) (st : SplitState) (hd : d ≠ '\\') :
    splitFinish (splitStep d (splitStep d st '\\') d) =
      st.done ++ [(st.cur ++ (if st.pending then ['\\'] else [])) ++ [d]] := by
  obtain ⟨dn, cu, pd⟩ := st
  cases pd <;> simp [splitStep, splitFinish, Ne.symm hd]

theorem splitStep_escape_other (d c : Char) (st : SplitState)
    (hd : d ≠ '\\') (hc1 : c ≠ d) (hc2 : c ≠ '\\') :
    splitFinish (splitStep d (splitStep d st '\\') c) =
      st.done ++ [(st.cur ++ (if st.pending then ['\\'] else [])) ++ ['\\', c]] := by
  obtain ⟨dn, cu, pd⟩ := st
  cases pd <;> simp [splitStep, splitFinish, Ne.symm hd, hc1, hc2]

/-- C8 counterexample: under the escape-any-next-character rule asserted by
the claim, the 23-character input of the test
splitString_seriesOfEscapedBackslashesAndDelimiters would split into two
tokens (the double backslash would collapse to one literal backslash and
the following dot would be an unescaped delimiter), while the test corpus
requires the single token one..\.two..\three, which the modelled
splitString delivers. -/
theorem splitter_literal_escape_refuted :
    splitString escInput '.' = [escExpected] ∧
    (splitStringLiteralEscape escInput '.').length = 2 ∧
    splitStringLiteralEscape escInput '.' ≠ [escExpected] := by
  refine ⟨?_, ?_, ?_⟩ <;> decide

/-- C8 (amended): backslash escapes an immediately following delimiter —
the delimiter is appended literally to the current token without
finalizing it and the escaping backslash is not emitted — while a
backslash followed by any other (non-delimiter, non-backslash) character
is appended literally together with that character.  Appending either
escape pair to any input extends the final token and never adds a split. -/
theorem splitter_escape_semantics (s : List Char) (d c : Char)
    (hd : d ≠ '\\') (hc1 : c ≠ d) (hc2 : c ≠ '\\') :
    ∃ ts t, splitString s d = ts ++ [t] ∧
      splitString (s ++ ['\\', d]) d = ts ++ [t ++ [d]] ∧
      splitString (s ++ ['\\', c]) d = ts ++ [t ++ ['\\', c]] := by
  refine ⟨(s.foldl (splitStep d) ⟨[], [], false⟩).done,
    (s.foldl (splitStep d) ⟨[], [], false⟩).cur ++
      (if (s.foldl (splitStep d) ⟨[], [], false⟩).pending then ['\\'] else []),
    rfl, ?_, ?_⟩
  · unfold splitString
    rw [List.foldl_append]
    simp only [List.foldl_cons, List.foldl_nil]
    exact splitStep_escape_delim d _ hd
  · unfold splitString
    rw [List.foldl_append]
    simp only [List.foldl_cons, List.foldl_nil]
    exact splitStep_escape_other d c _ hd hc1 hc2

/-- Witness for the amended C8 at a concrete input and escape pairs. -/
theorem splitter_escape_semantics_witness :
    ∃ ts t, splitString ("a.b".toList) '.' = ts ++ [t] ∧
      splitString ("a.b".toList ++ ['\\', '.']) '.' = ts ++ [t ++ ['.']] ∧
      splitString ("a.b".toList ++ ['\\', 't']) '.' = ts ++ [t ++ ['\\', 't']] :=
  splitter_escape_semantics ("a.b".toList) '.' 't'
    (by decide) (by decide) (by decide)

/-- C9 counterexample: the corpus input one backslash dot backslash dot
double-backslash dot two backslash dot backslash dot backslash three has
23 characters, not 21 as the claim asserts. -/
theorem escInput_length_refutes_claim :
    escInput.length = 23 ∧ escInput.length ≠ 21 := by
  constructor <;> decide

/-- C9 (amended): splitString with the default dot delimiter returns
exactly the corpus outputs, and the 23-character input containing the
backslash-backslash-dot subsequence yields the single-element result
one..\.two..\three (no split at the dot following the double backslash). -/
theorem splitter_corpus :
    splitString ("".toList) '.' = [[]] ∧
    splitString (".".toList) '.' = [[], []] ∧
    splitString ("..".toList) '.' = [[], [], []] ∧
    splitString ("one.two.three".toList) '.' =
      ["one".toList, "two".toList, "three".toList] ∧
    splitString ("one\\.two".toList) '.' = ["one.two".toList] ∧
    splitString (".two.three".toList) '.' = [[], "two".toList, "three".toList] ∧
    splitString ("one.two.".toList) '.' = ["one".toList, "two".toList, []] ∧
    escInput.length = 23 ∧
    escInput = "one\\.\\.".toList ++ ['\\', '\\', '.'] ++ "two\\.\\.\\three".toList ∧
    splitString escInput '.' = [escExpected] := by
  refine ⟨?_, ?_, ?_, ?_, ?_, ?_, ?_, ?_, ?_, ?_⟩ <;> decide

end DevOpcua
